import Mathlib

/-!
Verification of kube-oom-watcher (main.go) against its specification.

The Go program is shallowly embedded: pure helpers become Lean functions,
the database query and HTTP delivery become functions over explicit inputs
(a list of rows, a transport oracle), and the watch loops become functions
over explicit scripts of notifications and termination errors.
-/

namespace OomWatcher

/-! ## Character classes (Go regexp, ASCII semantics)

Go's regexp \s is [\t\n\f\r ], \d is [0-9] and \w is [0-9A-Za-z_].
-/

/-- Class of the Go regexp escape \s (ASCII whitespace: tab, newline,
form feed, carriage return, space). -/
def isWsChar (c : Char) : Bool :=
  c.toNat = 9 || c.toNat = 10 || c.toNat = 12 || c.toNat = 13 || c.toNat = 32

/-- Class of the Go regexp escape \d (ASCII digits). -/
def isDigitChar (c : Char) : Bool :=
  48 ≤ c.toNat && c.toNat ≤ 57

/-- Class of the Go regexp character class [\w\-]: word characters plus
the hyphen. -/
def isWordHyphenChar (c : Char) : Bool :=
  (48 ≤ c.toNat && c.toNat ≤ 57) || (65 ≤ c.toNat && c.toNat ≤ 90) ||
  (97 ≤ c.toNat && c.toNat ≤ 122) || c.toNat = 95 || c.toNat = 45

/-! ## Deterministic matching primitives

Both regexps used by the program alternate literal pieces with character
classes whose alphabets are disjoint from the character that follows them,
so Go's leftmost-greedy submatch semantics reduce to literal stripping and
maximal-munch runs.
-/

/-- Strip an exact literal from the front of the input; none on mismatch. -/
def stripLit : List Char → List Char → Option (List Char)
  | [], s => some s
  | _ :: _, [] => none
  | l :: ls, c :: cs => if c = l then stripLit ls cs else none

/-- Split off the maximal front run of characters satisfying p. -/
def takeRun (p : Char → Bool) : List Char → List Char × List Char
  | [] => ([], [])
  | c :: cs =>
    if p c then
      ((c :: (takeRun p cs).1), (takeRun p cs).2)
    else
      ([], c :: cs)

/-- Strip a maximal nonempty run of characters satisfying p (the greedy
semantics of a p+ regexp piece); none if the first character fails p. -/
def stripRun1 (p : Char → Bool) (s : List Char) : Option (List Char) :=
  match s with
  | [] => none
  | c :: _ => if p c then some (takeRun p s).2 else none

/-- Capture a maximal nonempty run of characters satisfying p, returning
the run and the remainder; none if the first character fails p. -/
def takeRun1 (p : Char → Bool) (s : List Char) : Option (List Char × List Char) :=
  match s with
  | [] => none
  | c :: _ => if p c then some (takeRun p s) else none

/-! ## The PID regexp: Kill\s+process\s+(\d+)  (main.go, pidRegExp) -/

def killLit : List Char := ['K', 'i', 'l', 'l']

def processLit : List Char := ['p', 'r', 'o', 'c', 'e', 's', 's']

/-- Attempt pidRegExp at the start of the input, returning the first
capture group (the digit run). -/
def matchPidAt (s : List Char) : Option (List Char) :=
  match stripLit killLit s with
  | none => none
  | some s1 =>
    match stripRun1 isWsChar s1 with
    | none => none
    | some s2 =>
      match stripLit processLit s2 with
      | none => none
      | some s3 =>
        match stripRun1 isWsChar s3 with
        | none => none
        | some s4 =>
          match takeRun1 isDigitChar s4 with
          | none => none
          | some dr => some dr.1

/-- Leftmost search of pidRegExp over the input, as Go's
FindStringSubmatch does: the capture of the leftmost position at which
the pattern matches. -/
def findPidMatch : List Char → Option (List Char)
  | [] => none
  | c :: cs =>
    match matchPidAt (c :: cs) with
    | some d => some d
    | none => findPidMatch cs

/-! ## strconv.ParseUint(match, 10, 64) on an all-digit capture -/

def digitVal (c : Char) : Nat := c.toNat - 48

def digitsToNat (l : List Char) : Nat :=
  l.foldl (fun acc c => acc * 10 + digitVal c) 0

/-- Largest value of Go's uint64. -/
def uint64Max : Nat := 18446744073709551615

/-- strconv.ParseUint of a nonempty all-digit string at base 10 and bit
size 64: the numeric value, or a range error beyond uint64. -/
def parseUint64 (d : List Char) : Except String Nat :=
  if digitsToNat d ≤ uint64Max then
    Except.ok (digitsToNat d)
  else
    Except.error ("strconv.ParseUint: parsing \"" ++ String.mk d ++ "\": value out of range")

/-- Embeds extractPID of main.go: search the event message with
pidRegExp, then parse the capture as a uint64. -/
def extractPID (message : String) : Except String Nat :=
  match findPidMatch message.data with
  | none => Except.error ("Event message does not match: " ++ message)
  | some d => parseUint64 d

/-! ## The claim's literal pattern, for refinement comparison -/

def killLitClaim : List Char :=
  ['K', 'i', 'l', 'l', ' ', 'p', 'r', 'o', 'c', 'e', 's', 's', ' ']

/-- Attempt the claim's literal pattern at the start of the input. -/
def matchPidClaimAt (s : List Char) : Option (List Char) :=
  match stripLit killLitClaim s with
  | none => none
  | some s1 =>
    match takeRun1 isDigitChar s1 with
    | none => none
    | some dr => some dr.1

/-- Leftmost search of the claim's literal pattern. -/
def findPidClaimMatch : List Char → Option (List Char)
  | [] => none
  | c :: cs =>
    match matchPidClaimAt (c :: cs) with
    | some d => some d
    | none => findPidClaimMatch cs

/-- Follows the claim's words only, for comparison with extractPID: an
extractor whose pattern is the literal Kill process (\d+), with single
literal spaces between the words. -/
def extractPIDClaimPattern (message : String) : Except String Nat :=
  match findPidClaimMatch message.data with
  | none => Except.error ("Event message does not match: " ++ message)
  | some d => parseUint64 d

/-! ## The cgroup regexp: /pod([\w\-]+)/  (main.go, cgroupRegExp) -/

def podLit : List Char := ['/', 'p', 'o', 'd']

/-- Attempt cgroupRegExp at the start of the input, returning the first
capture group (the uid run). -/
def matchPodAt (s : List Char) : Option (List Char) :=
  match stripLit podLit s with
  | none => none
  | some s1 =>
    match takeRun1 isWordHyphenChar s1 with
    | none => none
    | some ur =>
      match ur.2 with
      | [] => none
      | c :: _ => if c = '/' then some ur.1 else none

/-- Leftmost search of cgroupRegExp over the input. -/
def findPodMatch : List Char → Option (List Char)
  | [] => none
  | c :: cs =>
    match matchPodAt (c :: cs) with
    | some u => some u
    | none => findPodMatch cs

/-- Embeds extractUID of main.go: search the cgroup path with
cgroupRegExp and return the capture as the pod UID. -/
def extractUID (cgroup : String) : Except String String :=
  match findPodMatch cgroup.data with
  | none => Except.error ("Unknown cgroup format: " ++ cgroup)
  | some u => Except.ok (String.mk u)

/-! ## Declarative characterizations of the two patterns -/

/-- Declarative reading of pidRegExp: somewhere in the string, the word
Kill, a nonempty whitespace run, the word process, a nonempty whitespace
run, and a nonempty digit run occur in sequence. -/
def KillMatch (s : List Char) : Prop :=
  ∃ pre w1 w2 d rest,
    s = pre ++ killLit ++ w1 ++ processLit ++ w2 ++ d ++ rest ∧
    w1 ≠ [] ∧ (∀ c ∈ w1, isWsChar c = true) ∧
    w2 ≠ [] ∧ (∀ c ∈ w2, isWsChar c = true) ∧
    d ≠ [] ∧ (∀ c ∈ d, isDigitChar c = true)

/-- Declarative reading of cgroupRegExp: somewhere in the string, a /pod
prefix followed by a nonempty run of word-or-hyphen characters and a
closing slash. -/
def PodSegMatch (s : List Char) : Prop :=
  ∃ pre uid rest,
    s = pre ++ podLit ++ uid ++ '/' :: rest ∧
    uid ≠ [] ∧ (∀ c ∈ uid, isWordHyphenChar c = true)

/-! ## Pods and the UID index (main.go: PodInfo, uidIndex, podIndexer) -/

/-- Embeds the PodInfo struct (pod name and namespace). -/
structure PodInfo where
  name : String
  namespace_ : String
deriving DecidableEq

/-- The fields of a v1.Pod the program reads. -/
structure Pod where
  uid : String
  name : String
  namespace_ : String
  resourceVersion : String
deriving DecidableEq

/-- The shared uidIndex map, modelled as an association list with unique
keys (every write goes through indexUpsert or indexDelete). -/
def Index : Type := List (String × PodInfo)

/-- Go map read: index[u]. -/
def indexLookup : Index → String → Option PodInfo
  | [], _ => none
  | kv :: rest, u => if kv.1 = u then some kv.2 else indexLookup rest u

/-- Go map write: index[u] = v. -/
def indexUpsert : Index → String → PodInfo → Index
  | [], u, v => [(u, v)]
  | kv :: rest, u, v => if kv.1 = u then (u, v) :: rest else kv :: indexUpsert rest u v

/-- Go map delete: delete(index, u). -/
def indexDelete : Index → String → Index
  | [], _ => []
  | kv :: rest, u => if kv.1 = u then indexDelete rest u else kv :: indexDelete rest u

/-- A pod notification delivered on the watch channel (watch.Error and
non-pod objects are handled in the surrounding loop, not here). -/
inductive PodWatchEvent
  | added (p : Pod)
  | modified (p : Pod)
  | deleted (p : Pod)
deriving DecidableEq

/-- Embeds the body of the watch loop in internalPodIndexer: Added
upserts, Deleted deletes, Modified leaves the index unchanged. -/
def applyPodEvent (idx : Index) (ev : PodWatchEvent) : Index :=
  match ev with
  | PodWatchEvent.added p => indexUpsert idx p.uid ⟨p.name, p.namespace_⟩
  | PodWatchEvent.modified _ => idx
  | PodWatchEvent.deleted p => indexDelete idx p.uid

/-- Sequential processing of a stream of pod notifications. -/
def applyPodEvents (idx : Index) (evs : List PodWatchEvent) : Index :=
  evs.foldl applyPodEvent idx

/-- Embeds the snapshot phase of internalPodIndexer: load every item of
the pod list into a fresh map. -/
def buildIndex (pods : List Pod) : Index :=
  pods.foldl (fun idx p => indexUpsert idx p.uid ⟨p.name, p.namespace_⟩) []

/-- The effect of one notification on one uid: an add of that uid yields
its record, a delete of that uid yields absence, anything else does not
touch the uid. -/
def touch1 (ev : PodWatchEvent) (u : String) : Option (Option PodInfo) :=
  match ev with
  | PodWatchEvent.added p => if p.uid = u then some (some ⟨p.name, p.namespace_⟩) else none
  | PodWatchEvent.modified _ => none
  | PodWatchEvent.deleted p => if p.uid = u then some none else none

/-- The last add/delete notification of a stream that touches a given
uid, if any. -/
def lastTouch : List PodWatchEvent → String → Option (Option PodInfo)
  | [], _ => none
  | ev :: rest, u =>
    match lastTouch rest u with
    | some r => some r
    | none => touch1 ev u

/-- UIDs carried by add notifications. -/
def addedUIDs (evs : List PodWatchEvent) : List String :=
  evs.filterMap (fun ev =>
    match ev with
    | PodWatchEvent.added p => some p.uid
    | _ => none)

/-- UIDs carried by delete notifications. -/
def removedUIDs (evs : List PodWatchEvent) : List String :=
  evs.filterMap (fun ev =>
    match ev with
    | PodWatchEvent.deleted p => some p.uid
    | _ => none)

/-- Follows the claim's words only, for comparison with applyPodEvents:
membership in the set of added UIDs minus the set of removed UIDs. -/
def claimSetMembership (evs : List PodWatchEvent) (u : String) : Bool :=
  (addedUIDs evs).contains u && !((removedUIDs evs).contains u)

/-! ## The event stream and OOM signals (main.go: OOMEvent, internalEventWatcher) -/

/-- The fields of a v1.Event the program reads. -/
structure EventObject where
  reason : String
  involvedObjectKind : String
  involvedObjectName : String
  message : String
  resourceVersion : String
deriving DecidableEq

/-- Go watch event types. -/
inductive WatchType
  | added
  | modified
  | deleted
  | bookmark
  | errorType
deriving DecidableEq

/-- The object carried by a watch notification on the event stream:
either a v1.Event, or some other kind (failed type assertion). -/
inductive EventStreamObj
  | eventObj (e : EventObject)
  | otherKind
deriving DecidableEq

/-- One notification of the event watch stream. -/
structure EventWatchItem where
  type : WatchType
  obj : EventStreamObj
deriving DecidableEq

/-- Embeds the OOMEvent struct sent on the channel: zero values for node
and pid are the empty string and 0, a non-nil Error field is some
message. -/
structure OOMEvent where
  node : String
  pid : Nat
  err : Option String
deriving DecidableEq

/-- The OOMEvent sent in the extraction-failure branch (only Error set;
Node and PID keep their zero values). -/
def oomErrorSignal (msg : String) : OOMEvent :=
  { node := "", pid := 0, err := some msg }

/-- Embeds the body of the watch loop in internalEventWatcher: the list
of OOMEvent values sent on the channel for one watch notification.
A watch.Error notification terminates the loop (modelled in the
supervision functions) and sends nothing; a failed type assertion, a
non-Added type, a reason other than OOMKilling or an involved object
other than a Node send nothing. Otherwise extractPID runs; on failure
the code sends an error OOMEvent and then, lacking a continue, falls
through and also sends a success-shaped OOMEvent with the zero pid. -/
def eventSignals (it : EventWatchItem) : List OOMEvent :=
  if it.type = WatchType.errorType then []
  else
    match it.obj with
    | EventStreamObj.otherKind => []
    | EventStreamObj.eventObj e =>
      if it.type ≠ WatchType.added then []
      else if e.reason ≠ "OOMKilling" then []
      else if e.involvedObjectKind ≠ "Node" then []
      else
        match extractPID e.message with
        | Except.ok pid => [{ node := e.involvedObjectName, pid := pid, err := none }]
        | Except.error msg =>
          [oomErrorSignal msg, { node := e.involvedObjectName, pid := 0, err := none }]

/-! ## The process-record store query (main.go: handleOOM, SELECT) -/

/-- One row of the external records table (hostname, pid, ts, cgroup,
nspid). Timestamps are modelled as integers; only their order matters. -/
structure PsRecord where
  hostname : String
  pid : Nat
  ts : Int
  cgroup : String
  nspid : Nat
deriving DecidableEq

/-- The WHERE clause of the query in handleOOM: hostname = node AND
pid = pid AND ts < current_timestamp. Note the strict inequality in the
source. -/
def recordMatches (node : String) (pid : Nat) (now : Int) (r : PsRecord) : Bool :=
  decide (r.hostname = node) && decide (r.pid = pid) && decide (r.ts < now)

/-- ORDER BY ts DESC LIMIT 1 over a bag of rows: a row of maximal ts,
none if the bag is empty. -/
def maxByTs : List PsRecord → Option PsRecord
  | [] => none
  | r :: rs =>
    match maxByTs rs with
    | none => some r
    | some m => if m.ts > r.ts then some m else some r

/-- Embeds the SELECT of handleOOM: filter the records table by the
WHERE clause, then take the row of maximal ts. -/
def queryMostRecent (tbl : List PsRecord) (node : String) (pid : Nat) (now : Int) :
    Option PsRecord :=
  maxByTs (tbl.filter (recordMatches node pid now))

/-! ## The correlation pipeline (main.go: handleOOM) -/

/-- Embeds the correlation part of handleOOM: the success alert text, or
the error that handleOOM returns. The uidIndex pointer is nil before the
pod indexer publishes its first snapshot, modelled as the none case. -/
def correlate (tbl : List PsRecord) (now : Int) (uidIdx : Option Index) (ev : OOMEvent) :
    Except String String :=
  match queryMostRecent tbl ev.node ev.pid now with
  | none => Except.error ("No ps record for node " ++ ev.node ++ " and PID " ++ toString ev.pid)
  | some r =>
    match extractUID r.cgroup with
    | Except.error m => Except.error m
    | Except.ok uid =>
      match uidIdx with
      | none => Except.error "UID index not ready"
      | some idx =>
        match indexLookup idx uid with
        | none => Except.error ("Pod with UID " ++ uid ++ " is not known")
        | some pod =>
          Except.ok ("OOM in pod " ++ pod.namespace_ ++ "/" ++ pod.name ++
            " (node: " ++ ev.node ++ ", PID: " ++ toString ev.pid ++
            ", NSPID: " ++ toString r.nspid ++ ")")

/-- Initial value of the shared uidIndex pointer (a nil Go pointer). -/
def initialUidIndex : Option Index := none

/-! ## The notifier (main.go: postMessage, handleError) -/

/-- The alert payload map[string]string with keys username and text. -/
structure Alert where
  username : String
  text : String
deriving DecidableEq

/-- json.Marshal of the alert payload (Go serializes map keys in sorted
order: text before username). String escaping is not modelled; the
payloads the program builds contain no characters needing escapes beyond
those of their inputs. -/
def marshalAlert (a : Alert) : String :=
  "\x7b\"text\":\"" ++ a.text ++ "\",\"username\":\"" ++ a.username ++ "\"\x7d"

/-- An HTTP response as the program reads it: numeric status code and
status line. -/
structure HttpResponse where
  statusCode : Int
  status : String
deriving DecidableEq

/-- Outcome of one http.Post call: a response, or a transport error. -/
inductive TransportResult
  | response (r : HttpResponse)
  | transportError (msg : String)
deriving DecidableEq

/-- Embeds postMessage: serialize the payload, issue one POST of the
body through the transport, succeed exactly on a 2xx status. Returns the
list of request bodies actually posted together with the returned error.
json.Marshal cannot fail on a map of strings, so the marshal-error
branch of the source is unreachable for the payloads built here. -/
def postMessage (transport : String → TransportResult) (a : Alert) :
    List String × Option String :=
  match transport (marshalAlert a) with
  | TransportResult.transportError m => ([marshalAlert a], some m)
  | TransportResult.response r =>
    if r.statusCode < 200 || r.statusCode > 299 then
      ([marshalAlert a], some ("Failed to POST: " ++ r.status))
    else
      ([marshalAlert a], none)

/-- Embeds handleError: post an Error-prefixed alert under the fixed
username. -/
def handleError (transport : String → TransportResult) (msg : String) :
    List String × Option String :=
  postMessage transport { username := "OOM watcher", text := "Error: " ++ msg }

/-- Embeds handleOOM end to end: correlate, and on success post the
alert. Returns the bodies posted and the error handleOOM returns. -/
def handleOOM (transport : String → TransportResult) (tbl : List PsRecord) (now : Int)
    (uidIdx : Option Index) (ev : OOMEvent) : List String × Option String :=
  match correlate tbl now uidIdx ev with
  | Except.error m => ([], some m)
  | Except.ok text => postMessage transport { username := "OOM watcher", text := text }

/-- Embeds the body of the consumption loop in main: error signals go to
handleError; success signals go to handleOOM, whose error (correlation
or delivery) is in turn routed to handleError; the final error is only
logged. Returns the bodies posted and the logged error. -/
def consumeStep (transport : String → TransportResult) (tbl : List PsRecord) (now : Int)
    (uidIdx : Option Index) (ev : OOMEvent) : List String × Option String :=
  match ev.err with
  | some m => handleError transport m
  | none =>
    match handleOOM transport tbl now uidIdx ev with
    | (posts, some m) =>
      ((posts ++ (handleError transport m).1), (handleError transport m).2)
    | (posts, none) => (posts, none)

/-- The consumption loop over a queue of signals: every signal is
processed and the loop continues regardless of per-signal errors. -/
def consumeLoop (transport : String → TransportResult) (tbl : List PsRecord) (now : Int)
    (uidIdx : Option Index) : List OOMEvent → List String
  | [] => []
  | ev :: rest =>
    (consumeStep transport tbl now uidIdx ev).1 ++ consumeLoop transport tbl now uidIdx rest

/-! ## Watch supervision (main.go: podIndexer, eventWatcher) -/

/-- A Go error as the supervision loops inspect it: either an
apierrs.StatusError with its status reason, or any other error. -/
inductive GoErr
  | statusErr (reason : String) (msg : String)
  | otherErr (msg : String)
deriving DecidableEq

/-- metav1.StatusReasonExpired. -/
def statusReasonExpired : String := "Expired"

/-- The test both supervision loops apply: the error is a StatusError
whose status reason is Expired. -/
def isExpired : GoErr → Bool
  | GoErr.statusErr reason _ => reason == statusReasonExpired
  | GoErr.otherErr _ => false

/-- Outcome of a supervision loop on a finite script: a fatal stop
(log.Fatalln terminates the process), or the script ran out. -/
inductive LoopOutcome
  | fatal (e : GoErr)
  | exhausted
deriving DecidableEq

/-- One full run of internalPodIndexer: the snapshot it lists, the pod
notifications it then processes, and the error it terminates with. -/
structure PodIteration where
  snapshot : List Pod
  sessionEvents : List PodWatchEvent
  termErr : GoErr
deriving DecidableEq

/-- The index internalPodIndexer has published when it terminates: the
fresh snapshot index, updated by the session's notifications. -/
def internalPodIndexerResult (it : PodIteration) : Index :=
  applyPodEvents (buildIndex it.snapshot) it.sessionEvents

/-- Embeds podIndexer: run iterations of internalPodIndexer; an Expired
status error restarts with a fresh snapshot, any other error is fatal.
Returns the last published index and the outcome. -/
def runPodIndexer : Option Index → List PodIteration → Option Index × LoopOutcome
  | pub, [] => (pub, LoopOutcome.exhausted)
  | _, it :: rest =>
    if isExpired it.termErr then
      runPodIndexer (some (internalPodIndexerResult it)) rest
    else
      (some (internalPodIndexerResult it), LoopOutcome.fatal it.termErr)

/-- Embeds eventWatcher: run iterations of internalEventWatcher over the
script of their termination errors; an Expired status error restarts
(internalEventWatcher re-lists from scratch), any other error is
fatal. -/
def eventWatcherSupervise : List GoErr → LoopOutcome
  | [] => LoopOutcome.exhausted
  | e :: es =>
    if isExpired e then eventWatcherSupervise es else LoopOutcome.fatal e

/-! ## The watch timeout (main.go: minWatchTimeout, timeoutSeconds)

The source computes int64(minWatchTimeout.Seconds() * (rand.Float64() + 1.0))
in IEEE-754 binary64 arithmetic. Binary64 is modelled exactly: a finite
double is a rational, and each operation rounds its exact rational
result to the nearest representable double, ties to the even mantissa.
Every value reached by this expression is a positive normal double, so
subnormals, overflow, negative zero and NaN need no modelling.
-/

/-- Round a rational to the nearest integer, ties to even (the IEEE-754
default rounding applied to an integer mantissa grid). -/
def roundEven (x : ℚ) : ℤ :=
  if x - Int.floor x < 1 / 2 then Int.floor x
  else if 1 / 2 < x - Int.floor x then Int.floor x + 1
  else if Int.floor x % 2 = 0 then Int.floor x else Int.floor x + 1

/-- Two to an integer power, as a rational. -/
def qpow2 (e : ℤ) : ℚ :=
  if 0 ≤ e then (2 : ℚ) ^ e.toNat else 1 / (2 : ℚ) ^ (-e).toNat

/-- IEEE-754 binary64 rounding (round to nearest, ties to even) of a
positive rational in the normal range: the representable doubles of the
binade of x are the integer multiples of qpow2 (Int.log 2 x - 52), and
x rounds to the nearest one, ties to the even mantissa. -/
def float64Round (x : ℚ) : ℚ :=
  if x ≤ 0 then 0
  else (roundEven (x / qpow2 (Int.log 2 x - 52)) : ℚ) * qpow2 (Int.log 2 x - 52)

/-- The possible return values of Go's rand.Float64(): float64(n) / 2^63
for an Int63 value n (the int64-to-double conversion rounds to nearest,
the division by the power of two is exact), resampled when the quotient
rounds up to 1. -/
def IsRandFloat64 (f : ℚ) : Prop :=
  ∃ n : ℕ, n < 2 ^ 63 ∧ f = float64Round n / 2 ^ 63 ∧ f ≠ 1

/-- minWatchTimeout.Seconds() for minWatchTimeout = 5 * time.Minute:
exactly 300.0 (the conversion of a whole number of seconds is exact in
binary64). -/
def minWatchTimeoutSeconds : ℚ := 300

/-- The timeout computed in internalPodIndexer:
int64(minWatchTimeout.Seconds() * (rand.Float64() + 1.0)) with f the
drawn rand.Float64() value: the addition and the multiplication each
round their exact result to binary64, and the int64 conversion of the
positive result truncates, i.e. floors. -/
def podWatchTimeoutSeconds (f : ℚ) : ℤ :=
  Int.floor (float64Round (minWatchTimeoutSeconds * float64Round (f + 1)))

/-- The identical timeout computation in internalEventWatcher. -/
def eventWatchTimeoutSeconds (f : ℚ) : ℤ :=
  Int.floor (float64Round (minWatchTimeoutSeconds * float64Round (f + 1)))

/-! ## Lemmas on the matching primitives -/

theorem stripLit_eq_some : ∀ (l s r : List Char), stripLit l s = some r → s = l ++ r := by
  intro l
  induction l with
  | nil =>
    intro s r h
    simp only [stripLit, Option.some.injEq] at h
    simp [h]
  | cons a ls ih =>
    intro s r h
    cases s with
    | nil => simp [stripLit] at h
    | cons c cs =>
      simp only [stripLit] at h
      by_cases hc : c = a
      · simp only [hc, if_pos rfl] at h
        have := ih cs r h
        simp [hc, this]
      · simp [hc] at h

theorem stripLit_append (l r : List Char) : stripLit l (l ++ r) = some r := by
  induction l with
  | nil => simp [stripLit]
  | cons a ls ih => simp [stripLit, ih]

theorem takeRun_append (p : Char → Bool) : ∀ s : List Char,
    (takeRun p s).1 ++ (takeRun p s).2 = s := by
  intro s
  induction s with
  | nil => simp [takeRun]
  | cons c cs ih =>
    by_cases h : p c
    · simp [takeRun, h, ih]
    · simp [takeRun, h]

theorem takeRun_all (p : Char → Bool) : ∀ s : List Char, ∀ c ∈ (takeRun p s).1, p c = true := by
  intro s
  induction s with
  | nil => simp [takeRun]
  | cons a cs ih =>
    by_cases h : p a
    · intro c hc
      simp only [takeRun, h, if_pos] at hc
      rcases List.mem_cons.mp hc with h1 | h1
      · exact h1 ▸ h
      · exact ih c h1
    · intro c hc
      simp [takeRun, h] at hc

theorem takeRun_exact (p : Char → Bool) : ∀ (run rest : List Char),
    (∀ c ∈ run, p c = true) → (∀ c t, rest = c :: t → p c = false) →
    takeRun p (run ++ rest) = (run, rest) := by
  intro run
  induction run with
  | nil =>
    intro rest _ h2
    cases rest with
    | nil => simp [takeRun]
    | cons c t => simp [takeRun, h2 c t rfl]
  | cons a run' ih =>
    intro rest h1 h2
    have ha : p a = true := h1 a (List.mem_cons_self a run')
    have := ih rest (fun c hc => h1 c (List.mem_cons_of_mem a hc)) h2
    simp [takeRun, ha, this]

theorem stripRun1_eq_some (p : Char → Bool) (s r : List Char) (h : stripRun1 p s = some r) :
    ∃ run, s = run ++ r ∧ run ≠ [] ∧ ∀ c ∈ run, p c = true := by
  cases s with
  | nil => simp [stripRun1] at h
  | cons c cs =>
    simp only [stripRun1] at h
    by_cases hc : p c
    · simp only [hc, if_pos] at h
      have hr2 : (takeRun p (c :: cs)).2 = r := Option.some.inj h
      refine ⟨(takeRun p (c :: cs)).1, ?_, ?_, takeRun_all p (c :: cs)⟩
      · rw [← hr2]
        exact (takeRun_append p (c :: cs)).symm
      · simp [takeRun, hc]
    · simp [hc] at h

theorem stripRun1_append (p : Char → Bool) (run r : List Char) (hne : run ≠ [])
    (hall : ∀ c ∈ run, p c = true) (hr : ∀ c t, r = c :: t → p c = false) :
    stripRun1 p (run ++ r) = some r := by
  cases run with
  | nil => exact absurd rfl hne
  | cons a run' =>
    have ha : p a = true := hall a (List.mem_cons_self a run')
    have hex : takeRun p ((a :: run') ++ r) = (a :: run', r) := takeRun_exact p (a :: run') r hall hr
    simp only [List.cons_append] at hex
    simp [stripRun1, ha, hex]

theorem takeRun1_eq_some (p : Char → Bool) (s d r : List Char)
    (h : takeRun1 p s = some (d, r)) :
    s = d ++ r ∧ d ≠ [] ∧ ∀ c ∈ d, p c = true := by
  cases s with
  | nil => simp [takeRun1] at h
  | cons c cs =>
    simp only [takeRun1] at h
    by_cases hc : p c
    · simp only [hc, if_pos] at h
      have hd : (takeRun p (c :: cs)).1 = d := congrArg Prod.fst (Option.some.inj h)
      have hrr : (takeRun p (c :: cs)).2 = r := congrArg Prod.snd (Option.some.inj h)
      refine ⟨?_, ?_, ?_⟩
      · rw [← hd, ← hrr]
        exact (takeRun_append p (c :: cs)).symm
      · rw [← hd]
        simp [takeRun, hc]
      · intro x hx
        exact takeRun_all p (c :: cs) x (hd ▸ hx)
    · simp [hc] at h

theorem takeRun1_append (p : Char → Bool) (d r : List Char) (hne : d ≠ [])
    (hall : ∀ c ∈ d, p c = true) (hr : ∀ c t, r = c :: t → p c = false) :
    takeRun1 p (d ++ r) = some (d, r) := by
  cases d with
  | nil => exact absurd rfl hne
  | cons a d' =>
    have ha : p a = true := hall a (List.mem_cons_self a d')
    have hex : takeRun p ((a :: d') ++ r) = (a :: d', r) := takeRun_exact p (a :: d') r hall hr
    simp only [List.cons_append] at hex
    simp [takeRun1, ha, hex]

/-! ## Character class facts -/

theorem isDigit_not_ws (c : Char) (h : isDigitChar c = true) : isWsChar c = false := by
  simp only [isDigitChar, Bool.and_eq_true, decide_eq_true_eq] at h
  simp only [isWsChar, Bool.or_eq_false_iff, decide_eq_false_iff_not]
  omega

theorem ws_p_false : isWsChar 'p' = false := by decide

theorem wordHyphen_slash_false : isWordHyphenChar '/' = false := by decide

/-! ## Soundness and completeness of the PID matcher -/

theorem matchPidAt_sound (s d : List Char) (h : matchPidAt s = some d) :
    ∃ w1 w2 rest,
      s = killLit ++ w1 ++ processLit ++ w2 ++ d ++ rest ∧
      w1 ≠ [] ∧ (∀ c ∈ w1, isWsChar c = true) ∧
      w2 ≠ [] ∧ (∀ c ∈ w2, isWsChar c = true) ∧
      d ≠ [] ∧ (∀ c ∈ d, isDigitChar c = true) := by
  unfold matchPidAt at h
  cases h1 : stripLit killLit s with
  | none => simp [h1] at h
  | some s1 =>
    simp only [h1] at h
    cases h2 : stripRun1 isWsChar s1 with
    | none => simp [h2] at h
    | some s2 =>
      simp only [h2] at h
      cases h3 : stripLit processLit s2 with
      | none => simp [h3] at h
      | some s3 =>
        simp only [h3] at h
        cases h4 : stripRun1 isWsChar s3 with
        | none => simp [h4] at h
        | some s4 =>
          simp only [h4] at h
          cases h5 : takeRun1 isDigitChar s4 with
          | none => simp [h5] at h
          | some dr =>
            simp only [h5, Option.some.injEq] at h
            obtain ⟨d1, r1⟩ := dr
            have hds : s4 = d1 ++ r1 ∧ d1 ≠ [] ∧ ∀ c ∈ d1, isDigitChar c = true :=
              takeRun1_eq_some isDigitChar s4 d1 r1 h5
            obtain ⟨w1, hs1, hw1ne, hw1all⟩ := stripRun1_eq_some isWsChar s1 s2 h2
            obtain ⟨w2, hs3, hw2ne, hw2all⟩ := stripRun1_eq_some isWsChar s3 s4 h4
            have hs : s = killLit ++ s1 := stripLit_eq_some killLit s s1 h1
            have hs2 : s2 = processLit ++ s3 := stripLit_eq_some processLit s2 s3 h3
            refine ⟨w1, w2, r1, ?_, hw1ne, hw1all, hw2ne, hw2all, ?_, ?_⟩
            · rw [hs, hs1, hs2, hs3, hds.1, ← h]
              simp [List.append_assoc]
            · rw [← h]; exact hds.2.1
            · rw [← h]; exact hds.2.2

theorem matchPidAt_complete (w1 w2 d rest : List Char)
    (hw1 : w1 ≠ []) (hw1a : ∀ c ∈ w1, isWsChar c = true)
    (hw2 : w2 ≠ []) (hw2a : ∀ c ∈ w2, isWsChar c = true)
    (hd : d ≠ []) (hda : ∀ c ∈ d, isDigitChar c = true) :
    (matchPidAt (killLit ++ w1 ++ processLit ++ w2 ++ d ++ rest)).isSome = true := by
  have h1 : stripLit killLit (killLit ++ (w1 ++ (processLit ++ (w2 ++ (d ++ rest))))) =
      some (w1 ++ (processLit ++ (w2 ++ (d ++ rest)))) := stripLit_append _ _
  have h2 : stripRun1 isWsChar (w1 ++ (processLit ++ (w2 ++ (d ++ rest)))) =
      some (processLit ++ (w2 ++ (d ++ rest))) := by
    apply stripRun1_append _ _ _ hw1 hw1a
    intro c t hct
    have hcp : 'p' = c := by
      have := congrArg List.head? hct
      simpa [processLit] using this
    rw [← hcp]
    exact ws_p_false
  have h3 : stripLit processLit (processLit ++ (w2 ++ (d ++ rest))) =
      some (w2 ++ (d ++ rest)) := stripLit_append _ _
  have h4 : stripRun1 isWsChar (w2 ++ (d ++ rest)) = some (d ++ rest) := by
    apply stripRun1_append _ _ _ hw2 hw2a
    intro c t hct
    cases d with
    | nil => exact absurd rfl hd
    | cons c0 d' =>
      simp only [List.cons_append] at hct
      injection hct with hc0 _
      rw [← hc0]
      exact isDigit_not_ws c0 (hda c0 (List.mem_cons_self c0 d'))
  have h5 : ∃ dr, takeRun1 isDigitChar (d ++ rest) = some dr := by
    cases d with
    | nil => exact absurd rfl hd
    | cons c0 d' =>
      refine ⟨takeRun isDigitChar (c0 :: (d' ++ rest)), ?_⟩
      simp [takeRun1, hda c0 (List.mem_cons_self c0 d')]
  obtain ⟨dr, h5⟩ := h5
  simp only [List.append_assoc]
  simp [matchPidAt, h1, h2, h3, h4, h5]

theorem findPidMatch_sound : ∀ (s d : List Char), findPidMatch s = some d →
    ∃ pre w1 w2 rest,
      s = pre ++ killLit ++ w1 ++ processLit ++ w2 ++ d ++ rest ∧
      w1 ≠ [] ∧ (∀ c ∈ w1, isWsChar c = true) ∧
      w2 ≠ [] ∧ (∀ c ∈ w2, isWsChar c = true) ∧
      d ≠ [] ∧ (∀ c ∈ d, isDigitChar c = true) := by
  intro s
  induction s with
  | nil => intro d h; simp [findPidMatch] at h
  | cons c cs ih =>
    intro d h
    unfold findPidMatch at h
    cases hm : matchPidAt (c :: cs) with
    | some d0 =>
      simp only [hm, Option.some.injEq] at h
      obtain ⟨w1, w2, rest, heq, props⟩ := matchPidAt_sound (c :: cs) d (h ▸ hm)
      exact ⟨[], w1, w2, rest, by simpa using heq, props⟩
    | none =>
      simp only [hm] at h
      obtain ⟨pre, w1, w2, rest, heq, props⟩ := ih d h
      exact ⟨c :: pre, w1, w2, rest, by simp [heq], props⟩

theorem findPidMatch_complete : ∀ (pre s' : List Char),
    (matchPidAt s').isSome = true → (findPidMatch (pre ++ s')).isSome = true := by
  intro pre
  induction pre with
  | nil =>
    intro s' h
    cases s' with
    | nil => simp [matchPidAt, killLit, stripLit] at h
    | cons c cs =>
      simp only [List.nil_append]
      unfold findPidMatch
      cases hm : matchPidAt (c :: cs) with
      | some d => simp
      | none => rw [hm] at h; simp at h
  | cons c pre' ih =>
    intro s' h
    simp only [List.cons_append]
    unfold findPidMatch
    cases hm : matchPidAt (c :: (pre' ++ s')) with
    | some d => simp
    | none => simpa using ih s' h

/-- The executable PID search hits exactly the strings matched by the
declarative reading of pidRegExp. -/
theorem findPidMatch_iff (s : List Char) :
    (findPidMatch s).isSome = true ↔ KillMatch s := by
  constructor
  · intro h
    obtain ⟨d, hd⟩ := Option.isSome_iff_exists.mp h
    obtain ⟨pre, w1, w2, rest, heq, p1, p2, p3, p4, p5, p6⟩ := findPidMatch_sound s d hd
    exact ⟨pre, w1, w2, d, rest, heq, p1, p2, p3, p4, p5, p6⟩
  · intro h
    obtain ⟨pre, w1, w2, d, rest, heq, p1, p2, p3, p4, p5, p6⟩ := h
    rw [heq]
    simp only [List.append_assoc]
    apply findPidMatch_complete
    have := matchPidAt_complete w1 w2 d rest p1 p2 p3 p4 p5 p6
    simpa using this

/-! ## Soundness and completeness of the pod UID matcher -/

theorem matchPodAt_sound (s u : List Char) (h : matchPodAt s = some u) :
    ∃ rest, s = podLit ++ u ++ '/' :: rest ∧ u ≠ [] ∧ ∀ c ∈ u, isWordHyphenChar c = true := by
  unfold matchPodAt at h
  cases h1 : stripLit podLit s with
  | none => simp [h1] at h
  | some s1 =>
    simp only [h1] at h
    cases h2 : takeRun1 isWordHyphenChar s1 with
    | none => simp [h2] at h
    | some ur =>
      simp only [h2] at h
      obtain ⟨u1, r1⟩ := ur
      have hd : s1 = u1 ++ r1 ∧ u1 ≠ [] ∧ ∀ c ∈ u1, isWordHyphenChar c = true :=
        takeRun1_eq_some isWordHyphenChar s1 u1 r1 h2
      cases hr : r1 with
      | nil => rw [hr] at h; simp at h
      | cons c0 t =>
        rw [hr] at h
        by_cases hc : c0 = '/'
        · simp only [hc, if_pos, Option.some.injEq] at h
          have hs : s = podLit ++ s1 := stripLit_eq_some podLit s s1 h1
          refine ⟨t, ?_, ?_, ?_⟩
          · rw [hs, hd.1, hr, hc, ← h]
            simp [List.append_assoc]
          · rw [← h]; exact hd.2.1
          · rw [← h]; exact hd.2.2
        · simp [hc] at h

theorem matchPodAt_complete (uid rest : List Char) (hne : uid ≠ [])
    (hall : ∀ c ∈ uid, isWordHyphenChar c = true) :
    matchPodAt (podLit ++ uid ++ '/' :: rest) = some uid := by
  have h1 : stripLit podLit (podLit ++ (uid ++ '/' :: rest)) = some (uid ++ '/' :: rest) :=
    stripLit_append _ _
  have h2 : takeRun1 isWordHyphenChar (uid ++ '/' :: rest) = some (uid, '/' :: rest) := by
    apply takeRun1_append _ _ _ hne hall
    intro c t hct
    injection hct with hc0 _
    rw [← hc0]
    exact wordHyphen_slash_false
  simp only [List.append_assoc]
  simp [matchPodAt, h1, h2]

theorem findPodMatch_sound : ∀ (s u : List Char), findPodMatch s = some u →
    ∃ pre rest, s = pre ++ podLit ++ u ++ '/' :: rest ∧ u ≠ [] ∧
      ∀ c ∈ u, isWordHyphenChar c = true := by
  intro s
  induction s with
  | nil => intro u h; simp [findPodMatch] at h
  | cons c cs ih =>
    intro u h
    unfold findPodMatch at h
    cases hm : matchPodAt (c :: cs) with
    | some u0 =>
      simp only [hm, Option.some.injEq] at h
      obtain ⟨rest, heq, props⟩ := matchPodAt_sound (c :: cs) u (h ▸ hm)
      exact ⟨[], rest, by simpa using heq, props⟩
    | none =>
      simp only [hm] at h
      obtain ⟨pre, rest, heq, props⟩ := ih u h
      exact ⟨c :: pre, rest, by simp [heq], props⟩

theorem findPodMatch_complete : ∀ (pre s' : List Char),
    (matchPodAt s').isSome = true → (findPodMatch (pre ++ s')).isSome = true := by
  intro pre
  induction pre with
  | nil =>
    intro s' h
    cases s' with
    | nil => simp [matchPodAt, podLit, stripLit] at h
    | cons c cs =>
      simp only [List.nil_append]
      unfold findPodMatch
      cases hm : matchPodAt (c :: cs) with
      | some u => simp
      | none => rw [hm] at h; simp at h
  | cons c pre' ih =>
    intro s' h
    simp only [List.cons_append]
    unfold findPodMatch
    cases hm : matchPodAt (c :: (pre' ++ s')) with
    | some u => simp
    | none => simpa using ih s' h

/-- The executable pod-segment search hits exactly the strings matched
by the declarative reading of cgroupRegExp. -/
theorem findPodMatch_iff (s : List Char) :
    (findPodMatch s).isSome = true ↔ PodSegMatch s := by
  constructor
  · intro h
    obtain ⟨u, hu⟩ := Option.isSome_iff_exists.mp h
    obtain ⟨pre, rest, heq, p1, p2⟩ := findPodMatch_sound s u hu
    exact ⟨pre, u, rest, heq, p1, p2⟩
  · intro h
    obtain ⟨pre, u, rest, heq, p1, p2⟩ := h
    rw [heq]
    simp only [List.append_assoc]
    apply findPodMatch_complete
    have := matchPodAt_complete u rest p1 p2
    simp only [List.append_assoc] at this
    simp [this]

/-! ## Lemmas on the UID index -/

theorem indexLookup_upsert : ∀ (idx : Index) (k u : String) (v : PodInfo),
    indexLookup (indexUpsert idx k v) u = if k = u then some v else indexLookup idx u := by
  intro idx
  induction idx with
  | nil =>
    intro k u v
    by_cases h : k = u <;> simp [indexUpsert, indexLookup, h]
  | cons kv rest ih =>
    intro k u v
    by_cases h1 : kv.1 = k
    · by_cases h2 : k = u
      · simp [indexUpsert, indexLookup, h1, h2]
      · have h3 : ¬ kv.1 = u := by rw [h1]; exact h2
        simp [indexUpsert, indexLookup, h1, h2, h3]
    · by_cases h2 : kv.1 = u
      · have h3 : ¬ k = u := by
          intro hk
          exact h1 (by rw [h2, hk])
        have h4 : ¬ u = k := fun hu => h3 hu.symm
        simp [indexUpsert, indexLookup, h1, h2, h3, h4]
      · simp [indexUpsert, indexLookup, h1, h2, ih]

theorem indexLookup_delete : ∀ (idx : Index) (k u : String),
    indexLookup (indexDelete idx k) u = if k = u then none else indexLookup idx u := by
  intro idx
  induction idx with
  | nil =>
    intro k u
    by_cases h : k = u <;> simp [indexDelete, indexLookup, h]
  | cons kv rest ih =>
    intro k u
    by_cases h1 : kv.1 = k
    · by_cases h2 : k = u
      · simp [indexDelete, h1, h2, ih]
      · have h3 : ¬ kv.1 = u := by rw [h1]; exact h2
        simp [indexDelete, indexLookup, h1, h2, h3, ih]
    · by_cases h2 : kv.1 = u
      · have h3 : ¬ k = u := by
          intro hk
          exact h1 (by rw [h2, hk])
        have h4 : ¬ u = k := fun hu => h3 hu.symm
        simp [indexDelete, indexLookup, h1, h2, h3, h4]
      · simp [indexDelete, indexLookup, h1, h2, ih]

theorem applyPodEvents_cons (snap : Index) (ev : PodWatchEvent) (rest : List PodWatchEvent) :
    applyPodEvents snap (ev :: rest) = applyPodEvents (applyPodEvent snap ev) rest := rfl

/-- Last-write-wins characterization of the index after a stream of
notifications. -/
theorem applyPodEvents_lookup : ∀ (evs : List PodWatchEvent) (snap : Index) (u : String),
    indexLookup (applyPodEvents snap evs) u =
      (match lastTouch evs u with
       | some r => r
       | none => indexLookup snap u) := by
  intro evs
  induction evs with
  | nil => intro snap u; simp [applyPodEvents, lastTouch]
  | cons ev rest ih =>
    intro snap u
    rw [applyPodEvents_cons, ih]
    cases hl : lastTouch rest u with
    | some r => simp [lastTouch, hl]
    | none =>
      simp only [lastTouch, hl]
      cases ev with
      | added p =>
        by_cases hpu : p.uid = u <;>
          simp [applyPodEvent, touch1, hpu, indexLookup_upsert]
      | modified p => simp [applyPodEvent, touch1]
      | deleted p =>
        by_cases hpu : p.uid = u <;>
          simp [applyPodEvent, touch1, hpu, indexLookup_delete]

theorem indexLookup_foldl_upsert_isSome : ∀ (pods : List Pod) (acc : Index) (u : String),
    (indexLookup acc u).isSome = true →
    (indexLookup (pods.foldl (fun idx p => indexUpsert idx p.uid ⟨p.name, p.namespace_⟩) acc)
      u).isSome = true := by
  intro pods
  induction pods with
  | nil => intro acc u h; simpa using h
  | cons p rest ih =>
    intro acc u h
    simp only [List.foldl_cons]
    apply ih
    rw [indexLookup_upsert]
    by_cases hq : p.uid = u
    · simp [hq]
    · simpa [hq] using h

theorem indexLookup_foldl_upsert_mem : ∀ (pods : List Pod) (acc : Index) (p : Pod),
    p ∈ pods →
    (indexLookup (pods.foldl (fun idx q => indexUpsert idx q.uid ⟨q.name, q.namespace_⟩) acc)
      p.uid).isSome = true := by
  intro pods
  induction pods with
  | nil => intro acc p h; simp at h
  | cons q rest ih =>
    intro acc p h
    simp only [List.foldl_cons]
    rcases List.mem_cons.mp h with h1 | h1
    · apply indexLookup_foldl_upsert_isSome
      rw [h1, indexLookup_upsert]
      simp
    · exact ih _ p h1

/-- Every pod of the snapshot list is present in the freshly built
index. -/
theorem buildIndex_complete (pods : List Pod) (p : Pod) (h : p ∈ pods) :
    (indexLookup (buildIndex pods) p.uid).isSome = true :=
  indexLookup_foldl_upsert_mem pods [] p h

/-! ## Lemmas on the record query -/

theorem maxByTs_eq_none : ∀ (l : List PsRecord), maxByTs l = none → l = [] := by
  intro l
  cases l with
  | nil => intro _; rfl
  | cons r rs =>
    intro h
    simp only [maxByTs] at h
    cases hm : maxByTs rs with
    | none => rw [hm] at h; simp at h
    | some m0 =>
      rw [hm] at h
      by_cases hgt : m0.ts > r.ts <;> simp [hgt] at h

theorem maxByTs_mem : ∀ (l : List PsRecord) (m : PsRecord), maxByTs l = some m → m ∈ l := by
  intro l
  induction l with
  | nil => intro m h; simp [maxByTs] at h
  | cons r rs ih =>
    intro m h
    simp only [maxByTs] at h
    cases hm : maxByTs rs with
    | none =>
      rw [hm] at h
      simp only [Option.some.injEq] at h
      simp [← h]
    | some m0 =>
      simp only [hm] at h
      by_cases hgt : m0.ts > r.ts
      · rw [if_pos hgt] at h
        simp only [Option.some.injEq] at h
        exact List.mem_cons_of_mem r (h ▸ ih m0 hm)
      · rw [if_neg hgt] at h
        simp only [Option.some.injEq] at h
        simp [← h]

theorem maxByTs_ge : ∀ (l : List PsRecord) (m : PsRecord), maxByTs l = some m →
    ∀ x ∈ l, x.ts ≤ m.ts := by
  intro l
  induction l with
  | nil => intro m h; simp [maxByTs] at h
  | cons r rs ih =>
    intro m h x hx
    simp only [maxByTs] at h
    cases hm : maxByTs rs with
    | none =>
      rw [hm] at h
      simp only [Option.some.injEq] at h
      have hrs : rs = [] := maxByTs_eq_none rs hm
      rcases List.mem_cons.mp hx with h1 | h1
      · rw [h1, ← h]
      · rw [hrs] at h1; simp at h1
    | some m0 =>
      simp only [hm] at h
      by_cases hgt : m0.ts > r.ts
      · rw [if_pos hgt] at h
        simp only [Option.some.injEq] at h
        rcases List.mem_cons.mp hx with h1 | h1
        · rw [h1, ← h]; exact le_of_lt hgt
        · rw [← h]; exact ih m0 hm x h1
      · rw [if_neg hgt] at h
        simp only [Option.some.injEq] at h
        rcases List.mem_cons.mp hx with h1 | h1
        · rw [h1, ← h]
        · rw [← h]
          exact le_trans (ih m0 hm x h1) (le_of_not_lt hgt)

theorem maxByTs_isSome : ∀ (l : List PsRecord), l ≠ [] → (maxByTs l).isSome = true := by
  intro l
  cases l with
  | nil => intro h; exact absurd rfl h
  | cons r rs =>
    intro _
    simp only [maxByTs]
    cases hm : maxByTs rs with
    | none => simp
    | some m0 => by_cases hgt : m0.ts > r.ts <;> simp [hgt]

theorem recordMatches_iff (node : String) (pid : Nat) (now : Int) (r : PsRecord) :
    recordMatches node pid now r = true ↔
      r.hostname = node ∧ r.pid = pid ∧ r.ts < now := by
  simp [recordMatches, Bool.and_eq_true, decide_eq_true_eq, and_assoc]

/-! ## Lemmas on the notifier -/

theorem postMessage_posts (transport : String → TransportResult) (a : Alert) :
    (postMessage transport a).1 = [marshalAlert a] := by
  unfold postMessage
  cases transport (marshalAlert a) with
  | transportError m => rfl
  | response r => by_cases h : r.statusCode < 200 || r.statusCode > 299 <;> simp [h]

theorem postMessage_ok_iff (transport : String → TransportResult) (a : Alert) :
    (postMessage transport a).2 = none ↔
      ∃ r, transport (marshalAlert a) = TransportResult.response r ∧
        200 ≤ r.statusCode ∧ r.statusCode ≤ 299 := by
  unfold postMessage
  cases ht : transport (marshalAlert a) with
  | transportError m => simp [ht]
  | response r =>
    by_cases h : r.statusCode < 200 || r.statusCode > 299
    · simp only [h, if_pos]
      constructor
      · intro hc; simp at hc
      · intro hc
        obtain ⟨r', hr', hlo, hhi⟩ := hc
        injection hr' with hr'
        rw [← hr'] at hlo hhi
        simp only [Bool.or_eq_true, decide_eq_true_eq] at h
        exfalso
        rcases h with h | h <;> omega
    · simp only [h, if_neg]
      constructor
      · intro _
        refine ⟨r, rfl, ?_, ?_⟩ <;>
          (simp only [Bool.or_eq_true, decide_eq_true_eq, not_or] at h; omega)
      · intro _; rfl

/-! ## Lemmas on binary64 rounding -/

theorem roundEven_floor_le (x : ℚ) : Int.floor x ≤ roundEven x := by
  unfold roundEven
  split
  · exact le_refl _
  · split
    · omega
    · split <;> omega

theorem roundEven_intCast (m : ℤ) : roundEven ((m : ℚ)) = m := by
  unfold roundEven
  rw [Int.floor_intCast]
  norm_num

theorem intCast_le_roundEven (n : ℤ) (x : ℚ) (h : (n : ℚ) ≤ x) : n ≤ roundEven x :=
  le_trans (Int.le_floor.mpr h) (roundEven_floor_le x)

theorem roundEven_le_intCast (n : ℤ) (x : ℚ) (h : x ≤ (n : ℚ)) : roundEven x ≤ n := by
  have hf : Int.floor x ≤ n := by
    rw [← Int.floor_intCast (α := ℚ) n]
    exact Int.floor_le_floor h
  unfold roundEven
  by_cases h1 : x - Int.floor x < 1 / 2
  · rw [if_pos h1]
    exact hf
  · rw [if_neg h1]
    have h2 : (Int.floor x : ℚ) + 1 / 2 ≤ x := by
      have := not_lt.mp h1
      linarith
    have h3 : ((Int.floor x : ℤ) : ℚ) < (n : ℚ) := by linarith
    have h4 : Int.floor x < n := by exact_mod_cast h3
    split
    · omega
    · split <;> omega

theorem roundEven_le (x : ℚ) : (roundEven x : ℚ) ≤ x + 1 / 2 := by
  have hfl := Int.floor_le x
  unfold roundEven
  by_cases h1 : x - Int.floor x < 1 / 2
  · rw [if_pos h1]
    linarith
  · rw [if_neg h1]
    have h2 : (1 : ℚ) / 2 ≤ x - Int.floor x := not_lt.mp h1
    by_cases h3 : 1 / 2 < x - Int.floor x
    · rw [if_pos h3]
      push_cast
      linarith
    · rw [if_neg h3]
      have h4 : x - Int.floor x = 1 / 2 := le_antisymm (not_lt.mp h3) h2
      split <;> push_cast <;> linarith

theorem roundEven_lt_intCast (n : ℤ) (x : ℚ) (h : x + 1 / 2 < (n : ℚ)) : roundEven x < n := by
  have h1 : (roundEven x : ℚ) < (n : ℚ) := lt_of_le_of_lt (roundEven_le x) h
  exact_mod_cast h1

theorem qpow2_pos (e : ℤ) : 0 < qpow2 e := by
  unfold qpow2
  split <;> positivity

theorem qpow2_eq_zpow (e : ℤ) : qpow2 e = (2 : ℚ) ^ e := by
  unfold qpow2
  by_cases h : 0 ≤ e
  · rw [if_pos h]
    have he : (2 : ℚ) ^ e = (2 : ℚ) ^ (e.toNat : ℤ) := by
      congr 1
      omega
    rw [he, zpow_natCast]
  · rw [if_neg h]
    have he : (2 : ℚ) ^ e = ((2 : ℚ) ^ (((-e).toNat : ℕ) : ℤ))⁻¹ := by
      rw [← zpow_neg]
      congr 1
      omega
    rw [he, zpow_natCast, one_div]

theorem qpow2_zero : qpow2 (0 : ℤ) = 1 := by
  rw [qpow2_eq_zpow]
  norm_num

theorem qpow2_zero_add_one : qpow2 ((0 : ℤ) + 1) = 2 := by
  rw [qpow2_eq_zpow]
  norm_num

theorem qpow2_eight : qpow2 (8 : ℤ) = 256 := by
  rw [qpow2_eq_zpow]
  norm_num

theorem qpow2_eight_add_one : qpow2 ((8 : ℤ) + 1) = 512 := by
  rw [qpow2_eq_zpow]
  norm_num

theorem qpow2_nine : qpow2 (9 : ℤ) = 512 := by
  rw [qpow2_eq_zpow]
  norm_num

theorem qpow2_nine_add_one : qpow2 ((9 : ℤ) + 1) = 1024 := by
  rw [qpow2_eq_zpow]
  norm_num

theorem qpow2_sixtytwo : qpow2 (62 : ℤ) = 2 ^ 62 := by
  rw [qpow2_eq_zpow]
  norm_num

theorem qpow2_sixtytwo_add_one : qpow2 ((62 : ℤ) + 1) = 2 ^ 63 := by
  rw [qpow2_eq_zpow]
  norm_num

theorem qpow2_zero_sub : qpow2 ((0 : ℤ) - 52) = 1 / 2 ^ 52 := by
  rw [qpow2_eq_zpow]
  rw [show ((0 : ℤ) - 52) = -(52 : ℤ) by norm_num, zpow_neg]
  norm_num

theorem qpow2_eight_sub : qpow2 ((8 : ℤ) - 52) = 1 / 2 ^ 44 := by
  rw [qpow2_eq_zpow]
  rw [show ((8 : ℤ) - 52) = -(44 : ℤ) by norm_num, zpow_neg]
  norm_num

theorem qpow2_nine_sub : qpow2 ((9 : ℤ) - 52) = 1 / 2 ^ 43 := by
  rw [qpow2_eq_zpow]
  rw [show ((9 : ℤ) - 52) = -(43 : ℤ) by norm_num, zpow_neg]
  norm_num

theorem qpow2_sixtytwo_sub : qpow2 ((62 : ℤ) - 52) = 1024 := by
  rw [qpow2_eq_zpow]
  rw [show ((62 : ℤ) - 52) = (10 : ℤ) by norm_num]
  norm_num

theorem int_log2_eq (e : ℤ) (x : ℚ) (h1 : qpow2 e ≤ x) (h2 : x < qpow2 (e + 1)) :
    Int.log 2 x = e := by
  have hx : 0 < x := lt_of_lt_of_le (qpow2_pos e) h1
  have hb : 1 < (2 : ℕ) := by norm_num
  have hc : ((2 : ℕ) : ℚ) = (2 : ℚ) := by norm_num
  have h1' : ((2 : ℕ) : ℚ) ^ e ≤ x := by
    rw [hc, ← qpow2_eq_zpow]
    exact h1
  have h2' : x < ((2 : ℕ) : ℚ) ^ (e + 1) := by
    rw [hc, ← qpow2_eq_zpow]
    exact h2
  have hle : e ≤ Int.log 2 x := (Int.zpow_le_iff_le_log hb hx).mp h1'
  have hlt : Int.log 2 x < e + 1 := (Int.lt_zpow_iff_log_lt hb hx).mp h2'
  omega

theorem float64Round_eq (e : ℤ) (x : ℚ) (h1 : qpow2 e ≤ x) (h2 : x < qpow2 (e + 1)) :
    float64Round x = (roundEven (x / qpow2 (e - 52)) : ℚ) * qpow2 (e - 52) := by
  have hx : 0 < x := lt_of_lt_of_le (qpow2_pos e) h1
  unfold float64Round
  rw [if_neg (not_le.mpr hx), int_log2_eq e x h1 h2]

theorem float64Round_ge (e : ℤ) (x c : ℚ) (m : ℤ) (h1 : qpow2 e ≤ x) (h2 : x < qpow2 (e + 1))
    (hc : c = (m : ℚ) * qpow2 (e - 52)) (hcx : c ≤ x) : c ≤ float64Round x := by
  rw [float64Round_eq e x h1 h2, hc]
  have hu := qpow2_pos (e - 52)
  have h3 : (m : ℚ) ≤ x / qpow2 (e - 52) := by
    rw [le_div_iff₀ hu]
    rw [hc] at hcx
    exact hcx
  have h4 : m ≤ roundEven (x / qpow2 (e - 52)) := intCast_le_roundEven m _ h3
  have h5 : (m : ℚ) ≤ (roundEven (x / qpow2 (e - 52)) : ℚ) := by exact_mod_cast h4
  exact mul_le_mul_of_nonneg_right h5 hu.le

theorem float64Round_le (e : ℤ) (x c : ℚ) (m : ℤ) (h1 : qpow2 e ≤ x) (h2 : x < qpow2 (e + 1))
    (hc : c = (m : ℚ) * qpow2 (e - 52)) (hxc : x ≤ c) : float64Round x ≤ c := by
  rw [float64Round_eq e x h1 h2, hc]
  have hu := qpow2_pos (e - 52)
  have h3 : x / qpow2 (e - 52) ≤ (m : ℚ) := by
    rw [div_le_iff₀ hu]
    rw [hc] at hxc
    exact hxc
  have h4 : roundEven (x / qpow2 (e - 52)) ≤ m := roundEven_le_intCast m _ h3
  have h5 : (roundEven (x / qpow2 (e - 52)) : ℚ) ≤ (m : ℚ) := by exact_mod_cast h4
  exact mul_le_mul_of_nonneg_right h5 hu.le

theorem float64Round_le_sub (e : ℤ) (x : ℚ) (n : ℤ) (h1 : qpow2 e ≤ x) (h2 : x < qpow2 (e + 1))
    (hv : x / qpow2 (e - 52) + 1 / 2 < (n : ℚ)) :
    float64Round x ≤ ((n : ℚ) - 1) * qpow2 (e - 52) := by
  rw [float64Round_eq e x h1 h2]
  have hu := qpow2_pos (e - 52)
  have h4 : roundEven (x / qpow2 (e - 52)) < n := roundEven_lt_intCast n _ hv
  have h5 : (roundEven (x / qpow2 (e - 52)) : ℚ) ≤ (n : ℚ) - 1 := by
    have h6 : roundEven (x / qpow2 (e - 52)) ≤ n - 1 := by omega
    exact_mod_cast h6
  exact mul_le_mul_of_nonneg_right h5 hu.le

theorem float64Round_le_add_half (e : ℤ) (x : ℚ) (h1 : qpow2 e ≤ x)
    (h2 : x < qpow2 (e + 1)) : float64Round x ≤ x + qpow2 (e - 52) / 2 := by
  rw [float64Round_eq e x h1 h2]
  have hu := qpow2_pos (e - 52)
  have h3 := roundEven_le (x / qpow2 (e - 52))
  have h4 : (roundEven (x / qpow2 (e - 52)) : ℚ) * qpow2 (e - 52) ≤
      (x / qpow2 (e - 52) + 1 / 2) * qpow2 (e - 52) :=
    mul_le_mul_of_nonneg_right h3 hu.le
  have h5 : (x / qpow2 (e - 52) + 1 / 2) * qpow2 (e - 52) = x + qpow2 (e - 52) / 2 := by
    field_simp
    ring
  linarith

theorem roundEven_add_half_odd (n : ℤ) (hodd : n % 2 = 1) :
    roundEven ((n : ℚ) + 1 / 2) = n + 1 := by
  have hfl : Int.floor ((n : ℚ) + 1 / 2) = n := by
    rw [Int.floor_eq_iff]
    constructor
    · linarith
    · linarith
  unfold roundEven
  rw [hfl]
  have hfrac : (n : ℚ) + 1 / 2 - (n : ℤ) = 1 / 2 := by
    ring
  rw [hfrac]
  norm_num
  omega

theorem float64Round_boundary : float64Round (2 - 1 / 2 ^ 53) = 2 := by
  have h1 : qpow2 0 ≤ (2 - 1 / 2 ^ 53 : ℚ) := by
    have hq : qpow2 (0 : ℤ) = 1 := qpow2_zero
    rw [hq]
    norm_num
  have h2 : (2 - 1 / 2 ^ 53 : ℚ) < qpow2 (0 + 1) := by
    have hq : qpow2 ((0 : ℤ) + 1) = 2 := qpow2_zero_add_one
    rw [hq]
    norm_num
  have hq52 : qpow2 ((0 : ℤ) - 52) = 1 / 2 ^ 52 := qpow2_zero_sub
  rw [float64Round_eq 0 (2 - 1 / 2 ^ 53) h1 h2, hq52]
  have hdiv : (2 - 1 / 2 ^ 53 : ℚ) / (1 / 2 ^ 52) = ((2 ^ 53 - 1 : ℤ) : ℚ) + 1 / 2 := by
    push_cast
    field_simp
    ring
  rw [hdiv, roundEven_add_half_odd (2 ^ 53 - 1) (by decide)]
  push_cast
  norm_num

theorem float64Round_600 : float64Round 600 = 600 := by
  have h1 : qpow2 9 ≤ (600 : ℚ) := by
    have hq : qpow2 (9 : ℤ) = 512 := qpow2_nine
    rw [hq]
    norm_num
  have h2 : (600 : ℚ) < qpow2 (9 + 1) := by
    have hq : qpow2 ((9 : ℤ) + 1) = 1024 := qpow2_nine_add_one
    rw [hq]
    norm_num
  have hq43 : qpow2 ((9 : ℤ) - 52) = 1 / 2 ^ 43 := qpow2_nine_sub
  rw [float64Round_eq 9 600 h1 h2, hq43]
  have hdiv : (600 : ℚ) / (1 / 2 ^ 43) = ((600 * 2 ^ 43 : ℤ) : ℚ) := by
    push_cast
    field_simp
    norm_num
  rw [hdiv, roundEven_intCast]
  push_cast
  norm_num

theorem float64Round_maxInt63 :
    float64Round (2 ^ 63 - 2 ^ 10) = 2 ^ 63 - 2 ^ 10 := by
  have h1 : qpow2 62 ≤ (2 ^ 63 - 2 ^ 10 : ℚ) := by
    have hq : qpow2 (62 : ℤ) = 2 ^ 62 := qpow2_sixtytwo
    rw [hq]
    norm_num
  have h2 : (2 ^ 63 - 2 ^ 10 : ℚ) < qpow2 (62 + 1) := by
    have hq : qpow2 ((62 : ℤ) + 1) = 2 ^ 63 := qpow2_sixtytwo_add_one
    rw [hq]
    norm_num
  have hq10 : qpow2 ((62 : ℤ) - 52) = 1024 := qpow2_sixtytwo_sub
  rw [float64Round_eq 62 (2 ^ 63 - 2 ^ 10) h1 h2, hq10]
  have hdiv : ((2 ^ 63 - 2 ^ 10 : ℚ)) / 1024 = ((2 ^ 53 - 1 : ℤ) : ℚ) := by
    push_cast
    norm_num
  rw [hdiv, roundEven_intCast]
  push_cast
  norm_num

/-- Value-level bounds for the timeout expression: the doubly rounded
product lies in [300, 600], and stays strictly below 600 for every draw
below the maximal one. -/
theorem timeout_val_bounds (f : ℚ) (h0 : 0 ≤ f) (h1 : f < 1) :
    (300 : ℚ) ≤ float64Round (300 * float64Round (f + 1)) ∧
    float64Round (300 * float64Round (f + 1)) ≤ 600 ∧
    (f < 1 - 1 / 2 ^ 53 → float64Round (300 * float64Round (f + 1)) < 600) := by
  have e1a : qpow2 0 ≤ f + 1 := by
    have hq : qpow2 (0 : ℤ) = 1 := qpow2_zero
    rw [hq]
    linarith
  have e1b : f + 1 < qpow2 (0 + 1) := by
    have hq : qpow2 ((0 : ℤ) + 1) = 2 := qpow2_zero_add_one
    rw [hq]
    linarith
  have hq52 : qpow2 ((0 : ℤ) - 52) = 1 / 2 ^ 52 := qpow2_zero_sub
  have hg1 : (1 : ℚ) ≤ float64Round (f + 1) := by
    apply float64Round_ge 0 (f + 1) 1 (2 ^ 52) e1a e1b
    · rw [hq52]
      push_cast
      norm_num
    · linarith
  have hg2 : float64Round (f + 1) ≤ 2 := by
    apply float64Round_le 0 (f + 1) 2 (2 ^ 53) e1a e1b
    · rw [hq52]
      push_cast
      norm_num
    · linarith
  set g := float64Round (f + 1) with hgdef
  have hx1 : (300 : ℚ) ≤ 300 * g := by linarith
  have hx2 : 300 * g ≤ 600 := by linarith
  by_cases hcase : 300 * g < 512
  · have e2a : qpow2 8 ≤ 300 * g := by
      have hq : qpow2 (8 : ℤ) = 256 := qpow2_eight
      rw [hq]
      linarith
    have e2b : 300 * g < qpow2 (8 + 1) := by
      have hq : qpow2 ((8 : ℤ) + 1) = 512 := qpow2_eight_add_one
      rw [hq]
      exact hcase
    have hq44 : qpow2 ((8 : ℤ) - 52) = 1 / 2 ^ 44 := qpow2_eight_sub
    have hp1 : (300 : ℚ) ≤ float64Round (300 * g) := by
      apply float64Round_ge 8 (300 * g) 300 (300 * 2 ^ 44) e2a e2b
      · rw [hq44]
        push_cast
        norm_num
      · exact hx1
    have hp2 : float64Round (300 * g) ≤ 512 := by
      apply float64Round_le 8 (300 * g) 512 (2 ^ 53) e2a e2b
      · rw [hq44]
        push_cast
        norm_num
      · linarith
    exact ⟨hp1, by linarith, fun _ => by linarith⟩
  · have h512 : (512 : ℚ) ≤ 300 * g := not_lt.mp hcase
    have e2a : qpow2 9 ≤ 300 * g := by
      have hq : qpow2 (9 : ℤ) = 512 := qpow2_nine
      rw [hq]
      exact h512
    have e2b : 300 * g < qpow2 (9 + 1) := by
      have hq : qpow2 ((9 : ℤ) + 1) = 1024 := qpow2_nine_add_one
      rw [hq]
      linarith
    have hq43 : qpow2 ((9 : ℤ) - 52) = 1 / 2 ^ 43 := qpow2_nine_sub
    have hp1 : (300 : ℚ) ≤ float64Round (300 * g) := by
      apply float64Round_ge 9 (300 * g) 300 (300 * 2 ^ 43) e2a e2b
      · rw [hq43]
        push_cast
        norm_num
      · exact hx1
    have hp2 : float64Round (300 * g) ≤ 600 := by
      apply float64Round_le 9 (300 * g) 600 (600 * 2 ^ 43) e2a e2b
      · rw [hq43]
        push_cast
        norm_num
      · exact hx2
    refine ⟨hp1, hp2, ?_⟩
    intro hf
    have hgle : g ≤ 2 - 1 / 2 ^ 52 := by
      have hsub := float64Round_le_sub 0 (f + 1) (2 ^ 53) e1a e1b ?_
      · rw [hq52] at hsub
        push_cast at hsub
        rw [← hgdef] at hsub
        nlinarith [hsub]
      · rw [hq52]
        have hdiv : (f + 1) / ((1 : ℚ) / 2 ^ 52) = (f + 1) * 2 ^ 52 := by
          field_simp
        rw [hdiv]
        push_cast
        nlinarith [hf]
    have hxle : 300 * g ≤ 600 - 75 / 2 ^ 50 := by nlinarith [hgle]
    have hhalf := float64Round_le_add_half 9 (300 * g) e2a e2b
    rw [hq43] at hhalf
    have hnum : (600 : ℚ) - 75 / 2 ^ 50 + (1 / 2 ^ 43) / 2 < 600 := by norm_num
    linarith

/-! ## Claim theorems -/

/-- Claim C1: a qualifying control-plane event (add, reason OOMKilling,
involved object kind Node) must yield exactly one signal on the queue,
never both a failure and a success signal. The code violates this for
unparsable messages: the extraction-failure branch sends the error
signal and then, lacking a continue statement, falls through and also
sends a success-shaped signal with the zero PID. This theorem evaluates
the embedded watcher body at the failing input (two signals emitted) and
at a parsable input (one signal emitted). -/
theorem oom_event_double_signal :
    eventSignals ⟨WatchType.added,
        EventStreamObj.eventObj ⟨"OOMKilling", "Node", "node-3", "out of memory", "rv"⟩⟩ =
      [oomErrorSignal "Event message does not match: out of memory",
       { node := "node-3", pid := 0, err := none }] ∧
    (eventSignals ⟨WatchType.added,
        EventStreamObj.eventObj ⟨"OOMKilling", "Node", "node-3", "out of memory", "rv"⟩⟩).length
      = 2 ∧
    eventSignals ⟨WatchType.added,
        EventStreamObj.eventObj ⟨"OOMKilling", "Node", "node-3", "Kill process 500", "rv"⟩⟩ =
      [{ node := "node-3", pid := 500, err := none }] :=
  ⟨rfl, rfl, rfl⟩

/-- Claim C2 counterexample: with query time now = 10 and two matching
records at t1 = 3 and t2 = 10 (so t1 < t2 ≤ now), the claim predicts
that the record at t2 is selected; the query's strict ts < now excludes
it and the record at t1 is selected instead. -/
theorem query_boundary_timestamp_cex :
    queryMostRecent [⟨"n", 5, 3, "cgA", 1⟩, ⟨"n", 5, 10, "cgB", 2⟩] "n" 5 10 =
      some ⟨"n", 5, 3, "cgA", 1⟩ ∧
    (⟨"n", 5, 10, "cgB", 2⟩ : PsRecord).hostname = "n" ∧
    (⟨"n", 5, 10, "cgB", 2⟩ : PsRecord).pid = 5 ∧
    (⟨"n", 5, 10, "cgB", 2⟩ : PsRecord).ts ≤ 10 ∧
    (3 : Int) < 10 := by
  decide

/-- Claim C2 (amended): the query selects the single most recent record
whose hostname and process id match and whose timestamp is strictly
before the query time; any record whose timestamp is at or after the
query time is excluded, and whenever a matching record exists one is
returned. -/
theorem query_most_recent_strict :
    ∀ (tbl : List PsRecord) (node : String) (pid : Nat) (now : Int),
      (∀ r, queryMostRecent tbl node pid now = some r →
        r ∈ tbl ∧ r.hostname = node ∧ r.pid = pid ∧ r.ts < now ∧
        ∀ r' ∈ tbl, r'.hostname = node → r'.pid = pid → r'.ts < now → r'.ts ≤ r.ts) ∧
      (∀ r', r' ∈ tbl → r'.hostname = node → r'.pid = pid → r'.ts < now →
        (queryMostRecent tbl node pid now).isSome = true) := by
  intro tbl node pid now
  constructor
  · intro r h
    unfold queryMostRecent at h
    have hmem := maxByTs_mem _ r h
    have hf := List.mem_filter.mp hmem
    have hc := (recordMatches_iff node pid now r).mp hf.2
    refine ⟨hf.1, hc.1, hc.2.1, hc.2.2, ?_⟩
    intro r' hr' h1 h2 h3
    apply maxByTs_ge _ r h
    exact List.mem_filter.mpr ⟨hr', (recordMatches_iff node pid now r').mpr ⟨h1, h2, h3⟩⟩
  · intro r' hr' h1 h2 h3
    unfold queryMostRecent
    apply maxByTs_isSome
    intro hnil
    have hin : r' ∈ tbl.filter (recordMatches node pid now) :=
      List.mem_filter.mpr ⟨hr', (recordMatches_iff node pid now r').mpr ⟨h1, h2, h3⟩⟩
    rw [hnil] at hin
    simp at hin

/-- Witness for query_most_recent_strict at a one-row table. -/
theorem query_most_recent_strict_witness :
    (queryMostRecent [⟨"n", 5, 3, "cgA", 1⟩] "n" 5 10).isSome = true :=
  (query_most_recent_strict [⟨"n", 5, 3, "cgA", 1⟩] "n" 5 10).2
    ⟨"n", 5, 3, "cgA", 1⟩ (by decide) rfl rfl (by decide)

/-- Claim C3 counterexample: for the stream add u1, remove u1, add u1
over an empty snapshot, the index contains u1, while the claim's
{added UIDs} minus {removed UIDs} predicts absence. -/
theorem index_readd_cex :
    indexLookup (applyPodEvents []
        [PodWatchEvent.added ⟨"u1", "web", "prod", "1"⟩,
         PodWatchEvent.deleted ⟨"u1", "web", "prod", "2"⟩,
         PodWatchEvent.added ⟨"u1", "web", "prod", "3"⟩]) "u1" = some ⟨"web", "prod"⟩ ∧
    claimSetMembership
        [PodWatchEvent.added ⟨"u1", "web", "prod", "1"⟩,
         PodWatchEvent.deleted ⟨"u1", "web", "prod", "2"⟩,
         PodWatchEvent.added ⟨"u1", "web", "prod", "3"⟩] "u1" = false := by
  decide

/-- Claim C3 (amended): an add notification upserts, a remove
notification deletes by uid, a modify notification leaves the index
unchanged; and after any interleaving each uid's binding is decided by
the last add/remove notification touching it (the latest added record,
or absence after a removal), untouched uids keeping their snapshot
binding. -/
theorem index_last_write_wins :
    ∀ (idx snap : Index) (p : Pod) (u : String) (evs : List PodWatchEvent),
      applyPodEvent idx (PodWatchEvent.modified p) = idx ∧
      indexLookup (applyPodEvent idx (PodWatchEvent.added p)) u =
        (if p.uid = u then some ⟨p.name, p.namespace_⟩ else indexLookup idx u) ∧
      indexLookup (applyPodEvent idx (PodWatchEvent.deleted p)) u =
        (if p.uid = u then none else indexLookup idx u) ∧
      indexLookup (applyPodEvents snap evs) u =
        (match lastTouch evs u with
         | some r => r
         | none => indexLookup snap u) := by
  intro idx snap p u evs
  refine ⟨rfl, ?_, ?_, applyPodEvents_lookup evs snap u⟩
  · simp [applyPodEvent, indexLookup_upsert]
  · simp [applyPodEvent, indexLookup_delete]

/-- Claim C4: for both watch supervision loops, an iteration terminating
with a resume-token-expired status error restarts the loop (the pod
indexer continuing from a fresh snapshot index, independent of any
previously published state), while any other terminal error is fatal and
stops the process. -/
theorem watch_supervision_spec :
    ∀ (pub pub' : Option Index) (it : PodIteration) (rest : List PodIteration)
      (e : GoErr) (es : List GoErr),
      (isExpired it.termErr = true →
        runPodIndexer pub (it :: rest) =
          runPodIndexer (some (internalPodIndexerResult it)) rest ∧
        runPodIndexer pub (it :: rest) = runPodIndexer pub' (it :: rest)) ∧
      (isExpired it.termErr = false →
        runPodIndexer pub (it :: rest) =
          (some (internalPodIndexerResult it), LoopOutcome.fatal it.termErr)) ∧
      (isExpired e = true → eventWatcherSupervise (e :: es) = eventWatcherSupervise es) ∧
      (isExpired e = false → eventWatcherSupervise (e :: es) = LoopOutcome.fatal e) := by
  intro pub pub' it rest e es
  refine ⟨?_, ?_, ?_, ?_⟩
  · intro h
    constructor <;> simp [runPodIndexer, h]
  · intro h
    simp [runPodIndexer, h]
  · intro h
    simp [eventWatcherSupervise, h]
  · intro h
    simp [eventWatcherSupervise, h]

/-- Witness for watch_supervision_spec: a concrete expired error
restarts the pod indexer, a concrete other error is fatal for the event
watcher. -/
theorem watch_supervision_spec_witness :
    runPodIndexer none [⟨[], [], GoErr.statusErr "Expired" "gone"⟩] =
      runPodIndexer (some (internalPodIndexerResult ⟨[], [], GoErr.statusErr "Expired" "gone"⟩))
        [] ∧
    eventWatcherSupervise [GoErr.otherErr "boom"] = LoopOutcome.fatal (GoErr.otherErr "boom") :=
  ⟨((watch_supervision_spec none none ⟨[], [], GoErr.statusErr "Expired" "gone"⟩ []
      (GoErr.otherErr "boom") []).1 rfl).1,
   (watch_supervision_spec none none ⟨[], [], GoErr.statusErr "Expired" "gone"⟩ []
      (GoErr.otherErr "boom") []).2.2.2 rfl⟩

/-- Claim C5: every error naming a single unresolved OOM occurrence (no
process record, malformed control-group path, unknown workload UID) is
converted into an alert posted through the same notifier path as a
success alert, under the same fixed username, the no-record error text
naming the node and process id; and the consumer loop continues with the
remaining queue afterwards. -/
theorem correlation_error_alerts :
    ∀ (transport : String → TransportResult) (tbl : List PsRecord) (now : Int)
      (uidIdx : Option Index) (ev : OOMEvent) (rest : List OOMEvent),
      (ev.err = none → queryMostRecent tbl ev.node ev.pid now = none →
        correlate tbl now uidIdx ev =
          Except.error ("No ps record for node " ++ ev.node ++ " and PID " ++ toString ev.pid) ∧
        (consumeStep transport tbl now uidIdx ev).1 =
          [marshalAlert ⟨"OOM watcher",
            "Error: " ++ ("No ps record for node " ++ ev.node ++ " and PID " ++
              toString ev.pid)⟩]) ∧
      (∀ r m, ev.err = none → queryMostRecent tbl ev.node ev.pid now = some r →
        extractUID r.cgroup = Except.error m →
        (consumeStep transport tbl now uidIdx ev).1 =
          [marshalAlert ⟨"OOM watcher", "Error: " ++ m⟩]) ∧
      (∀ r u idx, ev.err = none → queryMostRecent tbl ev.node ev.pid now = some r →
        extractUID r.cgroup = Except.ok u → uidIdx = some idx → indexLookup idx u = none →
        (consumeStep transport tbl now uidIdx ev).1 =
          [marshalAlert ⟨"OOM watcher",
            "Error: " ++ ("Pod with UID " ++ u ++ " is not known")⟩]) ∧
      (∀ text, ev.err = none → correlate tbl now uidIdx ev = Except.ok text →
        (consumeStep transport tbl now uidIdx ev).1.head? =
          some (marshalAlert ⟨"OOM watcher", text⟩)) ∧
      consumeLoop transport tbl now uidIdx (ev :: rest) =
        (consumeStep transport tbl now uidIdx ev).1 ++ consumeLoop transport tbl now uidIdx rest := by
  intro transport tbl now uidIdx ev rest
  refine ⟨?_, ?_, ?_, ?_, rfl⟩
  · intro he hq
    have hc : correlate tbl now uidIdx ev =
        Except.error ("No ps record for node " ++ ev.node ++ " and PID " ++ toString ev.pid) := by
      simp [correlate, hq]
    refine ⟨hc, ?_⟩
    simp [consumeStep, he, handleOOM, hc, handleError, postMessage_posts]
  · intro r m he hq hu
    have hc : correlate tbl now uidIdx ev = Except.error m := by
      simp [correlate, hq, hu]
    simp [consumeStep, he, handleOOM, hc, handleError, postMessage_posts]
  · intro r u idx he hq hu hidx hlook
    have hc : correlate tbl now uidIdx ev =
        Except.error ("Pod with UID " ++ u ++ " is not known") := by
      simp [correlate, hq, hu, hidx, hlook]
    simp [consumeStep, he, handleOOM, hc, handleError, postMessage_posts]
  · intro text he hc
    simp only [consumeStep, he]
    simp only [handleOOM, hc]
    cases hres : (postMessage transport ⟨"OOM watcher", text⟩).2 with
    | none =>
      have h1 : postMessage transport ⟨"OOM watcher", text⟩ =
          ([marshalAlert ⟨"OOM watcher", text⟩], none) := by
        have := postMessage_posts transport ⟨"OOM watcher", text⟩
        exact Prod.ext this hres

      simp [h1]
    | some m =>
      have h1 : postMessage transport ⟨"OOM watcher", text⟩ =
          ([marshalAlert ⟨"OOM watcher", text⟩], some m) := by
        have := postMessage_posts transport ⟨"OOM watcher", text⟩
        exact Prod.ext this hres
      simp [h1]

/-- Witness for correlation_error_alerts: an empty record store yields
the no-record alert naming node-3 and PID 500 through the notifier. -/
theorem correlation_error_alerts_witness :
    correlate [] 0 none ⟨"node-3", 500, none⟩ =
      Except.error ("No ps record for node " ++ "node-3" ++ " and PID " ++ toString 500) ∧
    (consumeStep (fun _ => TransportResult.response ⟨200, "200 OK"⟩) [] 0 none
        ⟨"node-3", 500, none⟩).1 =
      [marshalAlert ⟨"OOM watcher",
        "Error: " ++ ("No ps record for node " ++ "node-3" ++ " and PID " ++ toString 500)⟩] :=
  (correlation_error_alerts (fun _ => TransportResult.response ⟨200, "200 OK"⟩) [] 0 none
    ⟨"node-3", 500, none⟩ []).1 rfl rfl

/-- Claim C6 counterexample: the code's pattern accepts any whitespace
run between the words, so it is not equivalent to the claim's literal
pattern with single spaces: on a message with two spaces the code
extracts PID 7 while the literal pattern fails to match. -/
theorem extractPID_whitespace_cex :
    extractPID "Kill  process 7" = Except.ok 7 ∧
    extractPIDClaimPattern "Kill  process 7" =
      Except.error "Event message does not match: Kill  process 7" :=
  ⟨rfl, rfl⟩

/-- Claim C6 (amended): PID extraction applies the fixed pattern
Kill\s+process\s+(\d+) (like the claim's pattern but with arbitrary
nonempty whitespace runs between the words): on a match it parses the
captured digits as an unsigned 64-bit integer, on no match or an
out-of-range capture it returns an extraction error; with the claim's
concrete examples. -/
theorem extractPID_spec :
    (∀ message n, extractPID message = Except.ok n →
      KillMatch message.data ∧ n ≤ uint64Max) ∧
    (∀ message, ¬ KillMatch message.data →
      extractPID message = Except.error ("Event message does not match: " ++ message)) ∧
    (∀ message, KillMatch message.data →
      ∃ d, findPidMatch message.data = some d ∧ extractPID message = parseUint64 d ∧
        d ≠ [] ∧ ∀ c ∈ d, isDigitChar c = true) ∧
    extractPID "Kill process 4821" = Except.ok 4821 ∧
    extractPID "out of memory" = Except.error "Event message does not match: out of memory" ∧
    extractPID "Kill process 18446744073709551616" =
      Except.error "strconv.ParseUint: parsing \"18446744073709551616\": value out of range" := by
  refine ⟨?_, ?_, ?_, rfl, rfl, rfl⟩
  · intro message n h
    unfold extractPID at h
    cases hf : findPidMatch message.data with
    | none => simp [hf] at h
    | some d =>
      simp only [hf] at h
      constructor
      · apply (findPidMatch_iff message.data).mp
        show (findPidMatch message.data).isSome = true
        simp [hf]
      · unfold parseUint64 at h
        by_cases hle : digitsToNat d ≤ uint64Max
        · rw [if_pos hle] at h
          injection h with h
          rw [← h]
          exact hle
        · rw [if_neg hle] at h
          exact absurd h (by simp)
  · intro message h
    unfold extractPID
    cases hf : findPidMatch message.data with
    | none => rfl
    | some d =>
      exfalso
      apply h
      apply (findPidMatch_iff message.data).mp
      show (findPidMatch message.data).isSome = true
      simp [hf]
  · intro message h
    have hs := (findPidMatch_iff message.data).mpr h
    obtain ⟨d, hd⟩ := Option.isSome_iff_exists.mp hs
    obtain ⟨pre, w1, w2, rest, heq, p1, p2, p3, p4, p5, p6⟩ := findPidMatch_sound _ d hd
    refine ⟨d, hd, ?_, p5, p6⟩
    have hd' : findPidMatch message.data = some d := hd
    unfold extractPID
    rw [hd']

/-- Witness for extractPID_spec: the parsable example satisfies the
declarative pattern and the uint64 bound. -/
theorem extractPID_spec_witness :
    KillMatch ("Kill process 4821".data) ∧ 4821 ≤ uint64Max :=
  extractPID_spec.1 "Kill process 4821" 4821 rfl

/-- Claim C7: UID extraction matches a /pod‹uid›/ path segment: on a
match it returns the captured uid (a nonempty run of word-or-hyphen
characters delimited by /pod and /), and when no such segment exists it
returns the malformed-path error; with the claim's concrete examples. -/
theorem extractUID_spec :
    (∀ cgroup u, extractUID cgroup = Except.ok u →
      ∃ pre rest, cgroup.data = pre ++ podLit ++ u.data ++ '/' :: rest ∧
        u.data ≠ [] ∧ ∀ c ∈ u.data, isWordHyphenChar c = true) ∧
    (∀ cgroup, ¬ PodSegMatch cgroup.data →
      extractUID cgroup = Except.error ("Unknown cgroup format: " ++ cgroup)) ∧
    (∀ cgroup, PodSegMatch cgroup.data → ∃ u, extractUID cgroup = Except.ok u) ∧
    extractUID ".../burstable/podabc-123-def/container0" = Except.ok "abc-123-def" ∧
    extractUID "/kubepods/burstable/container0" =
      Except.error "Unknown cgroup format: /kubepods/burstable/container0" := by
  refine ⟨?_, ?_, ?_, rfl, rfl⟩
  · intro cgroup u h
    unfold extractUID at h
    cases hf : findPodMatch cgroup.data with
    | none => simp [hf] at h
    | some u0 =>
      simp only [hf, Except.ok.injEq] at h
      have hf' : findPodMatch cgroup.data = some u0 := hf
      obtain ⟨pre, rest, heq, p1, p2⟩ := findPodMatch_sound _ u0 hf'
      have hu : u.data = u0 := by
        rw [← h]
      refine ⟨pre, rest, ?_, ?_, ?_⟩
      · rw [hu]; exact heq
      · rw [hu]; exact p1
      · rw [hu]; exact p2
  · intro cgroup h
    unfold extractUID
    cases hf : findPodMatch cgroup.data with
    | none => rfl
    | some u0 =>
      exfalso
      apply h
      apply (findPodMatch_iff cgroup.data).mp
      show (findPodMatch cgroup.data).isSome = true
      simp [hf]
  · intro cgroup h
    have hs := (findPodMatch_iff cgroup.data).mpr h
    obtain ⟨u0, hu0⟩ := Option.isSome_iff_exists.mp hs
    refine ⟨String.mk u0, ?_⟩
    have hu0' : findPodMatch cgroup.data = some u0 := hu0
    unfold extractUID
    rw [hu0']

/-- Witness for extractUID_spec: a concrete path with a pod segment
extracts successfully. -/
theorem extractUID_spec_witness :
    ∃ u, extractUID "/kubepods/podu1/c0" = Except.ok u :=
  extractUID_spec.2.2.1 "/kubepods/podu1/c0"
    ⟨"/kubepods".data, ['u', '1'], "c0".data, by decide, by decide, by decide⟩

/-- Claim C8: a notifier call serializes the payload, issues at most one
POST of the body, and succeeds exactly when the response status lies in
200 to 299; any other status or a transport error is a delivery failure,
with no retry. -/
theorem postMessage_spec :
    ∀ (transport : String → TransportResult) (a : Alert),
      (postMessage transport a).1.length ≤ 1 ∧
      (postMessage transport a).1 = [marshalAlert a] ∧
      ((postMessage transport a).2 = none ↔
        ∃ r, transport (marshalAlert a) = TransportResult.response r ∧
          200 ≤ r.statusCode ∧ r.statusCode ≤ 299) := by
  intro transport a
  refine ⟨?_, postMessage_posts transport a, postMessage_ok_iff transport a⟩
  rw [postMessage_posts transport a]
  simp

/-- Witness for postMessage_spec: a 204 response is reported as
success. -/
theorem postMessage_spec_witness :
    (postMessage (fun _ => TransportResult.response ⟨204, "204 No Content"⟩)
      ⟨"OOM watcher", "t"⟩).2 = none :=
  ((postMessage_spec (fun _ => TransportResult.response ⟨204, "204 No Content"⟩)
    ⟨"OOM watcher", "t"⟩).2.2).mpr ⟨⟨204, "204 No Content"⟩, rfl, by decide, by decide⟩

/-- Claim C9 counterexample: the strict upper bound fails at the maximal
rand.Float64() draw. The value 1 - 2^-53 is a possible draw (from the
Int63 value 2^63 - 2^10), binary64 round-to-even carries
(1 - 2^-53) + 1.0 to exactly 2.0, and both streams then compute a
timeout of exactly 600 seconds = 2T, not strictly less than 2T. -/
theorem watch_timeout_boundary_cex :
    IsRandFloat64 (1 - 1 / 2 ^ 53) ∧
    podWatchTimeoutSeconds (1 - 1 / 2 ^ 53) = 2 * 300 ∧
    eventWatchTimeoutSeconds (1 - 1 / 2 ^ 53) = 2 * 300 ∧
    ¬ podWatchTimeoutSeconds (1 - 1 / 2 ^ 53) < 2 * 300 := by
  have hb : float64Round ((1 - 1 / 2 ^ 53 : ℚ) + 1) = 2 := by
    have hx : (1 - 1 / 2 ^ 53 : ℚ) + 1 = 2 - 1 / 2 ^ 53 := by ring
    rw [hx, float64Round_boundary]
  have hval : Int.floor (float64Round (minWatchTimeoutSeconds *
      float64Round ((1 - 1 / 2 ^ 53 : ℚ) + 1))) = 600 := by
    rw [hb]
    have h6 : minWatchTimeoutSeconds * 2 = 600 := by
      unfold minWatchTimeoutSeconds
      norm_num
    rw [h6, float64Round_600]
    rw [show (600 : ℚ) = ((600 : ℤ) : ℚ) by norm_num, Int.floor_intCast]
  have hrand : IsRandFloat64 (1 - 1 / 2 ^ 53) := by
    refine ⟨2 ^ 63 - 2 ^ 10, by norm_num, ?_, by norm_num⟩
    have hcast : ((2 ^ 63 - 2 ^ 10 : ℕ) : ℚ) = 2 ^ 63 - 2 ^ 10 := by
      have hn : (2 ^ 63 - 2 ^ 10 : ℕ) = 9223372036854774784 := by norm_num
      rw [hn]
      norm_num
    rw [hcast, float64Round_maxInt63]
    norm_num
  have hv2 : podWatchTimeoutSeconds (1 - 1 / 2 ^ 53) = 600 := hval
  have hv3 : eventWatchTimeoutSeconds (1 - 1 / 2 ^ 53) = 600 := hval
  refine ⟨hrand, by rw [hv2]; norm_num, by rw [hv3]; norm_num, by rw [hv2]; norm_num⟩

/-- Claim C9 (amended): for every rand.Float64() draw f in [0, 1) the
timeout of both streams lies in the closed interval of 300 to 600
seconds; it is strictly below 2T = 600 for every draw below the maximal
representable one, while at the maximal draw 1 - 2^-53 the binary64
addition f + 1.0 rounds up to exactly 2.0 and the timeout equals
2T = 600 exactly, so the interval is [T, 2T], not [T, 2T). -/
theorem watch_timeout_range_float :
    ∀ f : ℚ, 0 ≤ f → f < 1 →
      (300 ≤ podWatchTimeoutSeconds f ∧ podWatchTimeoutSeconds f ≤ 600 ∧
       300 ≤ eventWatchTimeoutSeconds f ∧ eventWatchTimeoutSeconds f ≤ 600) ∧
      (f < 1 - 1 / 2 ^ 53 →
        podWatchTimeoutSeconds f < 600 ∧ eventWatchTimeoutSeconds f < 600) := by
  intro f h0 h1
  obtain ⟨hb1, hb2, hb3⟩ := timeout_val_bounds f h0 h1
  have hpod : podWatchTimeoutSeconds f =
      Int.floor (float64Round (300 * float64Round (f + 1))) := rfl
  have hev : eventWatchTimeoutSeconds f =
      Int.floor (float64Round (300 * float64Round (f + 1))) := rfl
  have hlo : (300 : ℤ) ≤ Int.floor (float64Round (300 * float64Round (f + 1))) := by
    apply Int.le_floor.mpr
    push_cast
    exact hb1
  have hhi : Int.floor (float64Round (300 * float64Round (f + 1))) ≤ 600 := by
    have h3 := Int.floor_le (float64Round (300 * float64Round (f + 1)))
    have h4 : (Int.floor (float64Round (300 * float64Round (f + 1))) : ℚ) ≤ 600 := by
      linarith
    exact_mod_cast h4
  refine ⟨⟨?_, ?_, ?_, ?_⟩, ?_⟩
  · rw [hpod]; exact hlo
  · rw [hpod]; exact hhi
  · rw [hev]; exact hlo
  · rw [hev]; exact hhi
  · intro hf
    have h5 := hb3 hf
    have h6 : Int.floor (float64Round (300 * float64Round (f + 1))) < 600 := by
      apply Int.floor_lt.mpr
      push_cast
      exact h5
    constructor
    · rw [hpod]; exact h6
    · rw [hev]; exact h6

/-- Witness for watch_timeout_range_float at the draw one half. -/
theorem watch_timeout_range_float_witness :
    (300 ≤ podWatchTimeoutSeconds (1 / 2) ∧ podWatchTimeoutSeconds (1 / 2) ≤ 600 ∧
     300 ≤ eventWatchTimeoutSeconds (1 / 2) ∧ eventWatchTimeoutSeconds (1 / 2) ≤ 600) ∧
    podWatchTimeoutSeconds (1 / 2) < 600 ∧ eventWatchTimeoutSeconds (1 / 2) < 600 :=
  ⟨(watch_timeout_range_float (1 / 2) (by norm_num) (by norm_num)).1,
   (watch_timeout_range_float (1 / 2) (by norm_num) (by norm_num)).2 (by norm_num)⟩

/-- Claim C10: before the pod indexer publishes its first snapshot the
shared index pointer is nil, a correlation lookup reaching the index in
that state returns the distinct UID-index-not-ready error (and can never
produce a success alert), and the published snapshot index contains
every pod of the listed item set. -/
theorem nil_index_guard :
    ∀ (tbl : List PsRecord) (now : Int) (ev : OOMEvent) (r : PsRecord) (u : String),
      (queryMostRecent tbl ev.node ev.pid now = some r →
        extractUID r.cgroup = Except.ok u →
        correlate tbl now none ev = Except.error "UID index not ready") ∧
      (∀ text, correlate tbl now none ev ≠ Except.ok text) ∧
      initialUidIndex = none ∧
      (∀ (pods : List Pod) (p : Pod), p ∈ pods →
        (indexLookup (buildIndex pods) p.uid).isSome = true) := by
  intro tbl now ev r u
  refine ⟨?_, ?_, rfl, fun pods p h => buildIndex_complete pods p h⟩
  · intro hq hu
    simp [correlate, hq, hu]
  · intro text hc
    unfold correlate at hc
    cases hq : queryMostRecent tbl ev.node ev.pid now with
    | none => simp [hq] at hc
    | some r0 =>
      simp only [hq] at hc
      cases hu : extractUID r0.cgroup with
      | error m => simp [hu] at hc
      | ok u0 => simp [hu] at hc

/-- Witness for nil_index_guard: a successful query and extraction still
stop at the nil index. -/
theorem nil_index_guard_witness :
    correlate [⟨"n1", 7, 3, "/kubepods/podu1/c0", 42⟩] 10 none ⟨"n1", 7, none⟩ =
      Except.error "UID index not ready" :=
  (nil_index_guard [⟨"n1", 7, 3, "/kubepods/podu1/c0", 42⟩] 10 ⟨"n1", 7, none⟩
      ⟨"n1", 7, 3, "/kubepods/podu1/c0", 42⟩ "u1").1 (by decide) rfl

end OomWatcher
